import Mathlib

/-!
Shallow embedding of `src/feed_generators/openai_eng_blog.py` (the extraction
and normalization pipeline of the rss-feeds repository), together with proofs
of the specification's claims about `stable_fallback_date` and
`parse_openai_eng_html`.

Modelling conventions:

* Python `datetime` values are modelled by `PyDateTime`: a count of minutes
  since 0001-01-01T00:00 in the proleptic Gregorian calendar (the granularity
  of every datetime constructed by this program is one minute), plus an
  `aware` flag recording whether a `tzinfo` is attached (the only timezone the
  program ever attaches is `pytz.UTC`).
* `datetime.strptime(s, "%Y-%m-%dT%H:%M")` and `datetime.strptime(s, "%Y-%m-%d")`
  are modelled by `strptime_YmdHM` / `strptime_Ymd`, following CPython's
  `_strptime` regexps: `%Y` is exactly four digits, `%m`, `%d`, `%H`, `%M` are
  one or two digits with the documented value ranges, literal characters match
  themselves (`T` case-insensitively, since `_strptime` compiles with
  IGNORECASE), the whole string must be consumed, and the resulting field
  values must form a valid calendar date (`datetime.__init__` raises
  `ValueError` otherwise, which `strptime` surfaces identically).  Digits are
  modelled as ASCII digits.
* Python's per-process string hash is an unknown function; every statement is
  parameterised by `pyhash : String → Int`, and `abs` is `Int.natAbs`.
* A BeautifulSoup query result (`select_one`) is `none` when no node matches.
  bs4's `Tag.__bool__` returns `True` for every tag, so the source's
  `if not elem:` tests are `Option.isNone` tests in the model.
* A `Card` records, for one `div.group.relative` card, the data the parser
  reads from it: the `href` of the first `a[href*='/index/']` descendant, the
  stripped text of the first `div.text-h5`, the `datetime` attribute of the
  first `time[datetime]`, the stripped text of the first
  `span.text-meta span:first-child`, and the stripped texts of the direct
  `span` children of the first `p.text-meta`.
* The `try/except` wrapping each card's processing is modelled by the input
  type `CardI`: `CardI.ok c` is a card whose processing runs to completion,
  `CardI.raises l?` is a card whose processing raises an exception after
  having registered `l?` in `seen_links` (the only mutation the body can make
  before an exception escapes; `l? = none` when the exception occurs before
  the `seen_links.add(link)` line).  The `except` clause drops the card and
  the loop continues.
* Python's `str.startswith` is modelled character-wise by `pyStartsWith`.
-/

/-- Model of Python `s.startswith(pre)`: character-wise prefix test. -/
def pyStartsWith (s pre : String) : Bool :=
  pre.data.isPrefixOf s.data

/-- Gregorian leap-year test, as in Python's `calendar.isleap` /
`datetime._is_leap`. -/
def isLeap (y : Nat) : Bool :=
  (y % 4 == 0 && y % 100 != 0) || y % 400 == 0

/-- Number of days in month `m` of year `y` (months are 1-based). -/
def daysInMonth (y m : Nat) : Nat :=
  if m = 2 then (if isLeap y then 29 else 28)
  else if m = 4 ∨ m = 6 ∨ m = 9 ∨ m = 11 then 30
  else 31

/-- Days in the proleptic Gregorian calendar strictly before January 1 of
year `y` (year 1 is ordinal day 0), as in `datetime._days_before_year`. -/
def daysBeforeYear (y : Nat) : Nat :=
  (y - 1) * 365 + (y - 1) / 4 - (y - 1) / 100 + (y - 1) / 400

/-- Days of year `y` strictly before the first day of month `m`. -/
def daysBeforeMonth (y m : Nat) : Nat :=
  ((List.range (m - 1)).map (fun k => daysInMonth y (k + 1))).sum

/-- Ordinal day number (0-based, day 0 is 0001-01-01) of the date `y-m-d`. -/
def toOrdinalDays (y m d : Nat) : Nat :=
  daysBeforeYear y + daysBeforeMonth y m + (d - 1)

/-- Model of a Python `datetime` as produced by this program: minutes since
0001-01-01T00:00, plus whether the value is timezone-aware (the program only
ever attaches `pytz.UTC`, so awareness determines the timezone). -/
structure PyDateTime where
  minutes : Nat
  aware : Bool
deriving DecidableEq

/-- Model of the naive `datetime(y, mo, d, hh, mi)`. -/
def pyDatetime (y mo d hh mi : Nat) : PyDateTime :=
  { minutes := toOrdinalDays y mo d * 1440 + hh * 60 + mi, aware := false }

/-- Model of `date.replace(tzinfo=pytz.UTC)`. -/
def tzReplaceUTC (dt : PyDateTime) : PyDateTime :=
  { dt with aware := true }

/-- Model of `dt + timedelta(days=n)`. -/
def addDays (dt : PyDateTime) (n : Nat) : PyDateTime :=
  { dt with minutes := dt.minutes + n * 1440 }

/-- Model of `datetime(2023, 1, 1, 0, 0, 0, tzinfo=pytz.UTC)`. -/
def epochUTC : PyDateTime :=
  tzReplaceUTC (pyDatetime 2023 1 1 0 0)

/-- Embedding of `stable_fallback_date` (lines 24-28 of the source):
`hash_val = abs(hash(identifier)) % 730` and the result is the UTC epoch
2023-01-01 plus `hash_val` whole days.  The process's string hash is the
parameter `pyhash`. -/
def stable_fallback_date (pyhash : String → Int) (identifier : String) : PyDateTime :=
  let hash_val : Nat := (pyhash identifier).natAbs % 730
  addDays epochUTC hash_val

/-- Numeric value of an ASCII digit. -/
def digitVal (c : Char) : Nat :=
  c.toNat - 48

/-- Parse exactly four digits (CPython's `%Y` pattern). -/
def parse4Digits : List Char → Option (Nat × List Char)
  | a :: b :: c :: d :: rest =>
    if a.isDigit && b.isDigit && c.isDigit && d.isDigit then
      some (((digitVal a * 10 + digitVal b) * 10 + digitVal c) * 10 + digitVal d, rest)
    else none
  | _ => none

/-- Parse one or two digits, two when two are available.  Because in both
formats every numeric field is followed by a non-digit literal or by the end
of the string, this deterministic rule coincides with the backtracking
behaviour of CPython's `%m`, `%d`, `%H`, `%M` alternation patterns. -/
def parse2or1Digits : List Char → Option (Nat × List Char)
  | a :: b :: rest =>
    if a.isDigit then
      if b.isDigit then some (digitVal a * 10 + digitVal b, rest)
      else some (digitVal a, b :: rest)
    else none
  | [a] => if a.isDigit then some (digitVal a, []) else none
  | [] => none

/-- Consume one expected literal character. -/
def expectChar (c : Char) : List Char → Option (List Char)
  | x :: rest => if x = c then some rest else none
  | [] => none

/-- Consume the literal `T` (case-insensitively, as `_strptime` compiles its
format regex with IGNORECASE). -/
def expectT : List Char → Option (List Char)
  | x :: rest => if x = 'T' ∨ x = 't' then some rest else none
  | [] => none

/-- Model of `datetime.strptime(s, "%Y-%m-%dT%H:%M")`, returning the parsed
`(year, month, day, hour, minute)` or `none` where Python raises
`ValueError`. -/
def strptime_YmdHM (s : String) : Option (Nat × Nat × Nat × Nat × Nat) :=
  (parse4Digits s.data).bind fun (y, r) =>
  (expectChar '-' r).bind fun r =>
  (parse2or1Digits r).bind fun (mo, r) =>
  (expectChar '-' r).bind fun r =>
  (parse2or1Digits r).bind fun (d, r) =>
  (expectT r).bind fun r =>
  (parse2or1Digits r).bind fun (hh, r) =>
  (expectChar ':' r).bind fun r =>
  (parse2or1Digits r).bind fun (mi, r) =>
  if r = [] ∧ 1 ≤ y ∧ 1 ≤ mo ∧ mo ≤ 12 ∧ 1 ≤ d ∧ d ≤ daysInMonth y mo
      ∧ hh ≤ 23 ∧ mi ≤ 59 then
    some (y, mo, d, hh, mi)
  else none

/-- Model of `datetime.strptime(s, "%Y-%m-%d")`. -/
def strptime_Ymd (s : String) : Option (Nat × Nat × Nat) :=
  (parse4Digits s.data).bind fun (y, r) =>
  (expectChar '-' r).bind fun r =>
  (parse2or1Digits r).bind fun (mo, r) =>
  (expectChar '-' r).bind fun r =>
  (parse2or1Digits r).bind fun (d, r) =>
  if r = [] ∧ 1 ≤ y ∧ 1 ≤ mo ∧ mo ≤ 12 ∧ 1 ≤ d ∧ d ≤ daysInMonth y mo then
    some (y, mo, d)
  else none

/-- Data the parser reads from one `div.group.relative` card.  Each field is
the result of the corresponding BeautifulSoup query, `none` when no node
matches. -/
structure Card where
  /-- `href` attribute of the first `a[href*='/index/']` descendant. -/
  linkHref : Option String
  /-- Stripped text of the first `div.text-h5`. -/
  titleText : Option String
  /-- `datetime` attribute of the first `time[datetime]`. -/
  timeDatetime : Option String
  /-- Stripped text of the first `span.text-meta span:first-child`. -/
  categorySpanText : Option String
  /-- Stripped texts of the direct `span` children of the first `p.text-meta`
  (in document order); `none` when there is no such paragraph. -/
  metaSpanTexts : Option (List String)
deriving DecidableEq

/-- One extracted article dictionary. -/
structure ArticleRecord where
  title : String
  link : String
  date : PyDateTime
  category : String
  description : String
deriving DecidableEq

/-- Embedding of lines 89-94 of the source: root-relative hrefs are prefixed
with the site origin, absolute hrefs are kept, anything else skips the
card. -/
def buildLink (href : String) : Option String :=
  if pyStartsWith href "/" then some ("https://openai.com" ++ href)
  else if pyStartsWith href "http" then some href
  else none

/-- Embedding of lines 109-126 of the source: the date of the record built
for a card whose absolute link is `link`. -/
def cardDate (pyhash : String → Int) (c : Card) (link : String) : PyDateTime :=
  match c.timeDatetime with
  | some ds =>
    match strptime_YmdHM ds with
    | some (y, mo, d, hh, mi) => tzReplaceUTC (pyDatetime y mo d hh mi)
    | none =>
      match strptime_Ymd ds with
      | some (y, mo, d) => tzReplaceUTC (pyDatetime y mo d 0 0)
      | none => stable_fallback_date pyhash link
  | none => stable_fallback_date pyhash link

/-- Embedding of lines 128-139 of the source: the category of the record
built for a card. -/
def cardCategory (c : Card) : String :=
  match c.categorySpanText with
  | none =>
    match c.metaSpanTexts with
    | some spans =>
      match spans with
      | t :: _ => t
      | [] => "Engineering"
    | none => "Engineering"
  | some t => t

/-- Embedding of the body of the `for card in cards` loop (lines 79-149):
given the current `seen_links` set (as a list) it returns the updated set and
the record appended for this card, if any. -/
def processCard (pyhash : String → Int) (seen : List String) (c : Card) :
    List String × Option ArticleRecord :=
  match c.linkHref with
  | none => (seen, none)
  | some href =>
    if href = "" then (seen, none)
    else
      match buildLink href with
      | none => (seen, none)
      | some link =>
        if seen.contains link then (seen, none)
        else
          match c.titleText with
          | none => (link :: seen, none)
          | some title =>
            if title = "" then (link :: seen, none)
            else
              (link :: seen, some
                { title := title
                  link := link
                  date := cardDate pyhash c link
                  category := cardCategory c
                  description := title })

/-- Input to the extraction loop for one card: a card whose processing runs
to completion, or one whose processing raises an exception after having
registered `registered` in `seen_links`. -/
inductive CardI where
  | ok (c : Card)
  | raises (registered : Option String)
deriving DecidableEq

/-- Add an optional link to the `seen_links` set. -/
def registerLink (seen : List String) (l? : Option String) : List String :=
  match l? with
  | some l => if seen.contains l then seen else l :: seen
  | none => seen

/-- One iteration of the extraction loop, including the `except` clause:
a raising card only registers its link and appends no record. -/
def stepCard (pyhash : String → Int) (st : List String × List ArticleRecord)
    (ci : CardI) : List String × List ArticleRecord :=
  match ci with
  | .raises l? => (registerLink st.1 l?, st.2)
  | .ok c =>
    ((processCard pyhash st.1 c).1,
     match (processCard pyhash st.1 c).2 with
     | some r => st.2 ++ [r]
     | none => st.2)

/-- Embedding of `parse_openai_eng_html` (lines 68-155): the card list stands
for `soup.select("div.group.relative")` in document order, and the result is
the accumulated `articles` list. -/
def parse_openai_eng_html (pyhash : String → Int) (cards : List CardI) :
    List ArticleRecord :=
  (cards.foldl (stepCard pyhash) ([], [])).2

/-- The absolute link a card contributes, when its link checks pass. -/
def cardLink (c : Card) : Option String :=
  match c.linkHref with
  | none => none
  | some href => if href = "" then none else buildLink href

/-- The absolute link with a default, for stating first-seen properties. -/
def cardLinkD (c : Card) : String :=
  (cardLink c).getD ""

/-- The link an input registers in `seen_links`, if any. -/
def ciLink : CardI → Option String
  | .ok c => cardLink c
  | .raises l? => l?

/-- A card that passes the link checks and the title checks, hence yields a
record when its link is not yet seen. -/
def Card.wellFormed (c : Card) : Bool :=
  (cardLink c).isSome &&
    (match c.titleText with
     | some t => !(t == "")
     | none => false)

/-- First occurrence of each string, in order of first appearance, starting
from an already-seen set. -/
def firstSeenAux (seen : List String) : List String → List String
  | [] => []
  | l :: ls =>
    if seen.contains l then firstSeenAux seen ls
    else l :: firstSeenAux (l :: seen) ls

/-- First occurrence of each string, in order of first appearance. -/
def firstSeen (ls : List String) : List String :=
  firstSeenAux [] ls

/-- A fixed stand-in for Python's per-process string hash, used by concrete
witnesses. -/
def pyhash0 : String → Int :=
  fun _ => 0

/-- Concrete card: root-relative link, title, parsable datetime, category. -/
def cardA : Card :=
  { linkHref := some "/index/foo", titleText := some "Foo Launch",
    timeDatetime := some "2024-03-01T12:00", categorySpanText := some "Research",
    metaSpanTexts := none }

/-- Concrete card sharing `cardA`'s link. -/
def cardA2 : Card :=
  { linkHref := some "/index/foo", titleText := some "Foo Again",
    timeDatetime := none, categorySpanText := none, metaSpanTexts := none }

/-- Concrete card: absolute link, no datetime, no category markup. -/
def cardB : Card :=
  { linkHref := some "https://openai.com/index/bar", titleText := some "Bar Update",
    timeDatetime := none, categorySpanText := none, metaSpanTexts := none }

/-- Concrete card with a missing title element. -/
def cardNoTitle : Card :=
  { linkHref := some "/index/baz", titleText := none,
    timeDatetime := none, categorySpanText := none, metaSpanTexts := none }

/-- Concrete card whose category label exists but has empty stripped text. -/
def cardEmptyLabel : Card :=
  { linkHref := some "/index/qux", titleText := some "Qux",
    timeDatetime := none, categorySpanText := some "", metaSpanTexts := none }

/-- Concrete card bearing the duplicated link, with no title. -/
def cardDupNoTitle : Card :=
  { linkHref := some "/index/dup", titleText := none,
    timeDatetime := none, categorySpanText := none, metaSpanTexts := none }

/-- Concrete card bearing the duplicated link, with a title. -/
def cardDupTitled : Card :=
  { linkHref := some "/index/dup", titleText := some "Dup",
    timeDatetime := none, categorySpanText := none, metaSpanTexts := none }

/-- The record extracted from `cardA`. -/
def recordA : ArticleRecord :=
  { title := "Foo Launch", link := "https://openai.com/index/foo",
    date := tzReplaceUTC (pyDatetime 2024 3 1 12 0),
    category := "Research", description := "Foo Launch" }

/-- The record extracted from `cardB`. -/
def recordB : ArticleRecord :=
  { title := "Bar Update", link := "https://openai.com/index/bar",
    date := stable_fallback_date pyhash0 "https://openai.com/index/bar",
    category := "Engineering", description := "Bar Update" }

/-- The record extracted from `cardEmptyLabel`. -/
def recordQux : ArticleRecord :=
  { title := "Qux", link := "https://openai.com/index/qux",
    date := stable_fallback_date pyhash0 "https://openai.com/index/qux",
    category := "", description := "Qux" }


/-- A prefix of a list is a prefix of any extension of that list. -/
theorem isPrefixOf_extend {l m : List Char} (h : l.isPrefixOf m = true)
    (t : List Char) : l.isPrefixOf (m ++ t) = true := by
  rw [ List.isPrefixOf_iff_prefix] at h ⊢
  exact h.trans ( List.prefix_append m t)

/-- Every link built by `buildLink` starts with `"http"`. -/
theorem buildLink_startsWith_http {href link : String}
    (h : buildLink href = some link) : pyStartsWith link "http" = true := by
  unfold buildLink at h
  by_cases h1 : pyStartsWith href "/" = true
  · rw [if_pos h1] at h
    injection h with h
    subst h
    unfold pyStartsWith
    rw [String.data_append]
    exact isPrefixOf_extend (by decide) _
  · rw [if_neg h1] at h
    by_cases h2 : pyStartsWith href "http" = true
    · rw [if_pos h2] at h
      injection h with h
      subst h
      exact h2
    · rw [if_neg h2] at h
      cases h

/-- Every link built by `buildLink` is non-empty. -/
theorem buildLink_ne_empty {href link : String}
    (h : buildLink href = some link) : link ≠ "" := by
  intro he
  have hp := buildLink_startsWith_http h
  rw [he] at hp
  exact absurd hp (by decide)

/-- Inversion of `processCard` on success: when a record is produced, the
card passed the link, dedup and title checks, and the record's fields are
exactly the extracted data. -/
theorem processCard_some {pyhash : String → Int} {seen : List String} {c : Card}
    {r : ArticleRecord} (h : (processCard pyhash seen c).2 = some r) :
    ∃ href link title,
      c.linkHref = some href ∧ href ≠ "" ∧ buildLink href = some link ∧
      seen.contains link = false ∧ c.titleText = some title ∧ title ≠ "" ∧
      (processCard pyhash seen c).1 = link :: seen ∧
      r = { title := title, link := link, date := cardDate pyhash c link,
            category := cardCategory c, description := title } := by
  obtain ⟨lh, tt, td, cs, ms⟩ := c
  cases lh with
  | none => simp [processCard] at h
  | some href =>
    by_cases he : href = ""
    · simp [processCard, he] at h
    · cases hb : buildLink href with
      | none => simp [processCard, he, hb] at h
      | some link =>
        by_cases hc : link ∈ seen
        · simp [processCard, he, hb, hc] at h
        · cases tt with
          | none => simp [processCard, he, hb, hc] at h
          | some title =>
            by_cases hte : title = ""
            · simp [processCard, he, hb, hc, hte] at h
            · refine ⟨href, link, title, rfl, he, hb, by simpa using hc, rfl,
                hte, ?_, ?_⟩
              · simp [processCard, he, hb, hc, hte]
              · have h2 := h
                simp [processCard, he, hb, hc, hte] at h2
                first
                | exact h2
                | exact h2.symm

/-- On a card that passes the link and title checks, `processCard` either
deduplicates or produces the record built from the extracted fields. -/
theorem processCard_wf {pyhash : String → Int} {seen : List String} {c : Card}
    {link title : String} (hL : cardLink c = some link)
    (ht : c.titleText = some title) (hte : title ≠ "") :
    processCard pyhash seen c =
      if link ∈ seen then (seen, none)
      else (link :: seen, some
        { title := title, link := link, date := cardDate pyhash c link,
          category := cardCategory c, description := title }) := by
  obtain ⟨lh, tt, td, cs, ms⟩ := c
  cases lh with
  | none => simp [cardLink] at hL
  | some href =>
    by_cases he : href = ""
    · simp [cardLink, he] at hL
    · simp [cardLink, he] at hL
      cases tt with
      | none => exact absurd ht (by simp)
      | some t0 =>
        have ht0 : t0 = title := by simpa using ht
        subst ht0
        by_cases hc : link ∈ seen
        · simp [processCard, he, hL, hc]
        · simp [processCard, he, hL, hc, hte]

/-- On a card that passes the link check but fails the title check with an
unseen link, `processCard` registers the link and produces no record. -/
theorem processCard_titleFail {pyhash : String → Int} {seen : List String}
    {c : Card} {link : String} (hL : cardLink c = some link)
    (hc : ¬ link ∈ seen) (ht : c.titleText = none ∨ c.titleText = some "") :
    processCard pyhash seen c = (link :: seen, none) := by
  obtain ⟨lh, tt, td, cs, ms⟩ := c
  cases lh with
  | none => simp [cardLink] at hL
  | some href =>
    by_cases he : href = ""
    · simp [cardLink, he] at hL
    · simp [cardLink, he] at hL
      cases tt with
      | none => simp [processCard, he, hL, hc]
      | some t0 =>
        rcases ht with ht | ht
        · exact absurd ht (by simp)
        · have ht0 : t0 = "" := by simpa using ht
          subst ht0
          simp [processCard, he, hL, hc]

/-- Case analysis of `processCard`: it either leaves the state unchanged with
no record, or the card's link is new, gets registered, and any produced
record carries it. -/
theorem processCard_cases (pyhash : String → Int) (seen : List String) (c : Card) :
    processCard pyhash seen c = (seen, none) ∨
    ∃ link, cardLink c = some link ∧ ¬ link ∈ seen ∧
      (processCard pyhash seen c).1 = link :: seen ∧
      ∀ r, (processCard pyhash seen c).2 = some r → r.link = link := by
  obtain ⟨lh, tt, td, cs, ms⟩ := c
  cases lh with
  | none => exact Or.inl (by simp [processCard])
  | some href =>
    by_cases he : href = ""
    · exact Or.inl (by simp [processCard, he])
    · cases hb : buildLink href with
      | none => exact Or.inl (by simp [processCard, he, hb])
      | some link =>
        by_cases hc : link ∈ seen
        · exact Or.inl (by simp [processCard, he, hb, hc])
        · refine Or.inr ⟨link, by simp [cardLink, he, hb], hc, ?_, ?_⟩
          · cases tt with
            | none => simp [processCard, he, hb, hc]
            | some t0 =>
              by_cases hte : t0 = "" <;> simp [processCard, he, hb, hc, hte]
          · intro r hr
            cases tt with
            | none => simp [processCard, he, hb, hc] at hr
            | some t0 =>
              by_cases hte : t0 = ""
              · simp [processCard, he, hb, hc, hte] at hr
              · simp [processCard, he, hb, hc, hte] at hr
                rw [← hr]

/-- Every date built by `cardDate` is timezone-aware. -/
theorem cardDate_aware (pyhash : String → Int) (c : Card) (link : String) :
    (cardDate pyhash c link).aware = true := by
  cases htd : c.timeDatetime with
  | none => simp [cardDate, htd, stable_fallback_date, addDays, epochUTC, tzReplaceUTC]
  | some ds =>
    cases hp1 : strptime_YmdHM ds with
    | some v =>
      obtain ⟨y, mo, d, hh, mi⟩ := v
      simp [cardDate, htd, hp1, tzReplaceUTC]
    | none =>
      cases hp2 : strptime_Ymd ds with
      | some v =>
        obtain ⟨y, mo, d⟩ := v
        simp [cardDate, htd, hp1, hp2, tzReplaceUTC]
      | none =>
        simp [cardDate, htd, hp1, hp2, stable_fallback_date, addDays, epochUTC,
          tzReplaceUTC]

/-- Every record produced by `processCard` satisfies the data-model
invariants. -/
theorem processCard_record_inv {pyhash : String → Int} {seen : List String}
    {c : Card} {r : ArticleRecord} (h : (processCard pyhash seen c).2 = some r) :
    r.title ≠ "" ∧ r.link ≠ "" ∧ pyStartsWith r.link "http" = true ∧
    r.date.aware = true ∧ r.description = r.title := by
  obtain ⟨href, link, title, _, _, hbl, _, _, hte, _, hrec⟩ := processCard_some h
  subst hrec
  exact ⟨hte, buildLink_ne_empty hbl, buildLink_startsWith_http hbl,
    cardDate_aware pyhash c link, rfl⟩

/-- Membership in `registerLink` comes from the set or the registered link. -/
theorem mem_registerLink {seen : List String} {L : String} {l? : Option String}
    (h : L ∈ registerLink seen l?) : L ∈ seen ∨ l? = some L := by
  cases l? with
  | none => exact Or.inl h
  | some l =>
    unfold registerLink at h
    by_cases hc : l ∈ seen
    · simp [hc] at h
      exact Or.inl h
    · simp [hc, List.mem_cons] at h
      rcases h with rfl | hL
      · exact Or.inr rfl
      · exact Or.inl hL

/-- `registerLink` only grows the seen set. -/
theorem mem_registerLink_of_mem {seen : List String} {L : String}
    (h : L ∈ seen) (l? : Option String) : L ∈ registerLink seen l? := by
  cases l? with
  | none => exact h
  | some l =>
    unfold registerLink
    by_cases hc : l ∈ seen
    · simpa [hc] using h
    · simp [hc, List.mem_cons]
      exact Or.inr h

/-- Membership in the seen set after `processCard` comes from the set or the
card's link. -/
theorem mem_processCard_fst {pyhash : String → Int} {seen : List String}
    {c : Card} {L : String} (h : L ∈ (processCard pyhash seen c).1) :
    L ∈ seen ∨ cardLink c = some L := by
  rcases processCard_cases pyhash seen c with heq | ⟨link, hL, _, h1, _⟩
  · rw [heq] at h
    exact Or.inl h
  · rw [h1] at h
    rcases List.mem_cons.mp h with rfl | hmem
    · exact Or.inr hL
    · exact Or.inl hmem

/-- `processCard` only grows the seen set. -/
theorem mem_processCard_fst_of_mem {pyhash : String → Int} {seen : List String}
    {c : Card} {L : String} (h : L ∈ seen) : L ∈ (processCard pyhash seen c).1 := by
  rcases processCard_cases pyhash seen c with heq | ⟨link, _, _, h1, _⟩
  · rw [heq]
    exact h
  · rw [h1]
    exact List.mem_cons_of_mem link h

/-- Every record in the loop's accumulator was there initially or was
produced by `processCard` for some card and seen set. -/
theorem foldl_records_inv (pyhash : String → Int) :
    ∀ (cards : List CardI) (st : List String × List ArticleRecord)
      (r : ArticleRecord), r ∈ (cards.foldl (stepCard pyhash) st).2 →
      r ∈ st.2 ∨ ∃ seen c, (processCard pyhash seen c).2 = some r := by
  intro cards
  induction cards with
  | nil => intro st r hr; exact Or.inl hr
  | cons ci rest ih =>
    intro st r hr
    rw [List.foldl_cons] at hr
    rcases ih _ r hr with hmem | hgood
    · cases ci with
      | raises l? => exact Or.inl hmem
      | ok c =>
        revert hmem
        simp only [stepCard]
        cases hres : (processCard pyhash st.1 c).2 with
        | none => intro hmem; exact Or.inl hmem
        | some r0 =>
          intro hmem
          rcases List.mem_append.mp hmem with h1 | h2
          · exact Or.inl h1
          · have heq := List.mem_singleton.mp h2
            subst heq
            exact Or.inr ⟨st.1, c, hres⟩
    · exact Or.inr hgood

/-- Once a link is in the seen set, the rest of the loop appends no record
carrying it, and it stays in the seen set. -/
theorem foldl_dedup_blocks (pyhash : String → Int) (L : String) :
    ∀ (cards : List CardI) (st : List String × List ArticleRecord),
      L ∈ st.1 → (∀ r ∈ st.2, r.link ≠ L) →
      (∀ r ∈ (cards.foldl (stepCard pyhash) st).2, r.link ≠ L) := by
  intro cards
  induction cards with
  | nil => intro st _ h2; exact h2
  | cons ci rest ih =>
    intro st h1 h2
    rw [List.foldl_cons]
    apply ih
    · cases ci with
      | raises l? => exact mem_registerLink_of_mem h1 l?
      | ok c => exact mem_processCard_fst_of_mem h1
    · intro r hr
      cases ci with
      | raises l? => exact h2 r hr
      | ok c =>
        revert hr
        simp only [stepCard]
        cases hres : (processCard pyhash st.1 c).2 with
        | none => intro hr; exact h2 r hr
        | some r0 =>
          intro hr
          rcases List.mem_append.mp hr with hmem | hmem
          · exact h2 r hmem
          · have heq := List.mem_singleton.mp hmem
            subst heq
            obtain ⟨href, link, title, _, _, _, hcontains, _, _, _, hrec⟩ :=
              processCard_some hres
            rw [hrec]
            intro hEq
            have h3 : link = L := hEq
            subst h3
            exact absurd h1 (by simpa using hcontains)

/-- A run of the loop over cards none of which bears link `L`, starting with
`L` unseen, keeps `L` unseen and appends no record carrying `L`. -/
theorem foldl_no_link (pyhash : String → Int) (L : String) :
    ∀ (cards : List CardI) (st : List String × List ArticleRecord),
      (∀ ci ∈ cards, ciLink ci ≠ some L) → ¬ L ∈ st.1 →
      (¬ L ∈ (cards.foldl (stepCard pyhash) st).1) ∧
      (∀ r ∈ (cards.foldl (stepCard pyhash) st).2, r ∈ st.2 ∨ r.link ≠ L) := by
  intro cards
  induction cards with
  | nil => intro st _ h1; exact ⟨h1, fun r hr => Or.inl hr⟩
  | cons ci rest ih =>
    intro st hno h1
    rw [List.foldl_cons]
    have hci : ciLink ci ≠ some L := hno ci (List.mem_cons_self ci rest)
    have hrest : ∀ x ∈ rest, ciLink x ≠ some L :=
      fun x hx => hno x (List.mem_cons_of_mem ci hx)
    have hseen : ¬ L ∈ (stepCard pyhash st ci).1 := by
      cases ci with
      | raises l? =>
        intro hmem
        rcases mem_registerLink hmem with hL | hL
        · exact h1 hL
        · exact hci (by simpa [ciLink] using hL)
      | ok c =>
        intro hmem
        rcases mem_processCard_fst hmem with hL | hL
        · exact h1 hL
        · exact hci (by simpa [ciLink] using hL)
    obtain ⟨ih1, ih2⟩ := ih (stepCard pyhash st ci) hrest hseen
    refine ⟨ih1, fun r hr => ?_⟩
    rcases ih2 r hr with hmem | hne
    · cases ci with
      | raises l? => exact Or.inl hmem
      | ok c =>
        revert hmem
        simp only [stepCard]
        cases hres : (processCard pyhash st.1 c).2 with
        | none => intro hmem; exact Or.inl hmem
        | some r0 =>
          intro hmem
          rcases List.mem_append.mp hmem with hmm | hmm
          · exact Or.inl hmm
          · have heq := List.mem_singleton.mp hmm
            subst heq
            obtain ⟨href, link, title, hlh, hhe, hbl, _, _, _, _, hrec⟩ :=
              processCard_some hres
            right
            rw [hrec]
            intro hEq
            apply hci
            have hcl : cardLink c = some link := by simp [cardLink, hlh, hhe, hbl]
            simpa [ciLink, hcl] using congrArg some hEq
    · exact Or.inr hne

/-- Core dedup lemma: over well-formed cards the loop appends exactly one
record per first-seen link, in first-occurrence order. -/
theorem parse_wf_aux (pyhash : String → Int) :
    ∀ (cs : List Card) (seen : List String) (acc : List ArticleRecord),
      (∀ c ∈ cs, c.wellFormed = true) →
      (((cs.map CardI.ok).foldl (stepCard pyhash) (seen, acc)).2).map
          (fun r => r.link)
        = acc.map (fun r => r.link) ++ firstSeenAux seen (cs.map cardLinkD) := by
  intro cs
  induction cs with
  | nil =>
    intro seen acc _
    simp [firstSeenAux]
  | cons c rest ih =>
    intro seen acc hwf
    have hcwf := hwf c (List.mem_cons_self c rest)
    have hrest : ∀ x ∈ rest, x.wellFormed = true :=
      fun x hx => hwf x (List.mem_cons_of_mem c hx)
    unfold Card.wellFormed at hcwf
    rw [Bool.and_eq_true] at hcwf
    obtain ⟨hsome, htitle⟩ := hcwf
    obtain ⟨link, hlink⟩ := Option.isSome_iff_exists.mp hsome
    cases ht : c.titleText with
    | none => rw [ht] at htitle; simp at htitle
    | some title =>
      rw [ht] at htitle
      have hte : title ≠ "" := by simpa using htitle
      have hlinkD : cardLinkD c = link := by simp [cardLinkD, hlink]
      rw [List.map_cons, List.map_cons, List.foldl_cons, hlinkD]
      by_cases hmem : link ∈ seen
      · have hpc : processCard pyhash seen c = (seen, none) := by
          rw [processCard_wf hlink ht hte, if_pos hmem]
        have hstep : stepCard pyhash (seen, acc) (CardI.ok c) = (seen, acc) := by
          simp [stepCard, hpc]
        rw [hstep, ih seen acc hrest]
        simp only [firstSeenAux]
        rw [if_pos (by simpa using hmem)]
      · have hpc : processCard pyhash seen c = (link :: seen, some
            { title := title, link := link, date := cardDate pyhash c link,
              category := cardCategory c, description := title }) := by
          rw [processCard_wf hlink ht hte, if_neg hmem]
        have hstep : stepCard pyhash (seen, acc) (CardI.ok c)
            = (link :: seen, acc.concat
                { title := title, link := link, date := cardDate pyhash c link,
                  category := cardCategory c, description := title }) := by
          simp [stepCard, hpc]
        rw [hstep, ih (link :: seen) _ hrest]
        simp only [firstSeenAux]
        rw [if_neg (by simpa using hmem)]
        simp

/-- C1: for well-formed cards, extraction returns exactly `M` records, where
`M` is the number of distinct absolute links (an input with `N` cards sharing
one absolute link and `M` distinct links in total yields `M` records, never
`N + M`): the record links are the distinct card links in first-occurrence
order, so the first occurrence of each absolute link wins and every second
and later occurrence of the same link is silently dropped. -/
theorem c1_dedup_first_seen_wins (pyhash : String → Int) (cards : List Card)
    (M : Nat) (hwf : ∀ c ∈ cards, c.wellFormed = true)
    (hM : (firstSeen (cards.map cardLinkD)).length = M) :
    (parse_openai_eng_html pyhash (cards.map CardI.ok)).length = M ∧
    (parse_openai_eng_html pyhash (cards.map CardI.ok)).map (fun r => r.link)
      = firstSeen (cards.map cardLinkD) := by
  have h := parse_wf_aux pyhash cards [] [] hwf
  simp only [List.map_nil, List.nil_append] at h
  have hparse : (parse_openai_eng_html pyhash (cards.map CardI.ok)).map
      (fun r => r.link) = firstSeen (cards.map cardLinkD) := h
  constructor
  · rw [← hM, ← hparse, List.length_map]
  · exact hparse

/-- Witness for C1: two cards sharing the link `/index/foo` plus one card
with the distinct link `/index/bar` yield exactly two records. -/
theorem c1_witness :
    (parse_openai_eng_html pyhash0 ([cardA, cardA2, cardB].map CardI.ok)).length
        = 2 ∧
    (parse_openai_eng_html pyhash0
        ([cardA, cardA2, cardB].map CardI.ok)).map (fun r => r.link)
      = firstSeen ([cardA, cardA2, cardB].map cardLinkD) :=
  c1_dedup_first_seen_wins pyhash0 [cardA, cardA2, cardB] 2 (by decide) (by decide)

/-- C2: for every identifier and every per-process hash function, the Date
Resolver maps the identifier to a day offset in `[0, 729]`, adds that many
whole days to the UTC epoch 2023-01-01T00:00, and its output therefore always
lies within `[2023-01-01T00:00Z, 2024-12-31T00:00Z]`. -/
theorem c2_fallback_range (pyhash : String → Int) (s : String) :
    (pyhash s).natAbs % 730 ≤ 729 ∧
    stable_fallback_date pyhash s = addDays epochUTC ((pyhash s).natAbs % 730) ∧
    epochUTC.minutes ≤ (stable_fallback_date pyhash s).minutes ∧
    (stable_fallback_date pyhash s).minutes
      ≤ (tzReplaceUTC (pyDatetime 2024 12 31 0 0)).minutes := by
  have hle : (pyhash s).natAbs % 730 ≤ 729 :=
    Nat.lt_succ_iff.mp (Nat.mod_lt _ (by norm_num))
  refine ⟨hle, rfl, ?_, ?_⟩
  · exact Nat.le_add_right _ _
  · show epochUTC.minutes + ((pyhash s).natAbs % 730) * 1440 ≤ _
    calc epochUTC.minutes + ((pyhash s).natAbs % 730) * 1440
        ≤ epochUTC.minutes + 729 * 1440 :=
          Nat.add_le_add_left (Nat.mul_le_mul_right _ hle) _
      _ ≤ (tzReplaceUTC (pyDatetime 2024 12 31 0 0)).minutes := by decide

/-- C3: for a card that produces a record, the record's date is obtained by
first trying the minute-precision format on the time element's machine
readable attribute, then the date-only format, the first success being
normalized to UTC; when there is no time element, or both parses fail, the
date is the Date Resolver applied to the article's absolute URL. -/
theorem c3_date_priority (pyhash : String → Int) (seen : List String) (c : Card)
    (r : ArticleRecord) (hr : (processCard pyhash seen c).2 = some r) :
    (c.timeDatetime = none → r.date = stable_fallback_date pyhash r.link) ∧
    (∀ ds, c.timeDatetime = some ds →
      (∀ y mo d hh mi, strptime_YmdHM ds = some (y, mo, d, hh, mi) →
          r.date = tzReplaceUTC (pyDatetime y mo d hh mi)) ∧
      (∀ y mo d, strptime_YmdHM ds = none → strptime_Ymd ds = some (y, mo, d) →
          r.date = tzReplaceUTC (pyDatetime y mo d 0 0)) ∧
      (strptime_YmdHM ds = none → strptime_Ymd ds = none →
          r.date = stable_fallback_date pyhash r.link)) := by
  obtain ⟨href, link, title, _, _, _, _, _, _, _, hrec⟩ := processCard_some hr
  subst hrec
  refine ⟨?_, ?_⟩
  · intro hnone
    simp [cardDate, hnone]
  · intro ds hds
    refine ⟨?_, ?_, ?_⟩
    · intro y mo d hh mi hp
      simp [cardDate, hds, hp]
    · intro y mo d hp1 hp2
      simp [cardDate, hds, hp1, hp2]
    · intro hp1 hp2
      simp [cardDate, hds, hp1, hp2]

/-- Witness for C3: `cardA` carries datetime `2024-03-01T12:00`, which the
minute-precision format parses, so its record's date is that instant in
UTC. -/
theorem c3_witness :
    recordA.date = tzReplaceUTC (pyDatetime 2024 3 1 12 0) :=
  ((c3_date_priority pyhash0 [] cardA recordA (by decide)).2
    "2024-03-01T12:00" rfl).1 2024 3 1 12 0 (by decide)

/-- C4: every record returned by extraction has a timezone-aware (and hence
present) date, a non-empty title, a non-empty absolute link (it starts with
`"http"`), and a description equal to its title. -/
theorem c4_record_invariants (pyhash : String → Int) (cards : List CardI)
    (r : ArticleRecord) (hr : r ∈ parse_openai_eng_html pyhash cards) :
    r.title ≠ "" ∧ r.link ≠ "" ∧ pyStartsWith r.link "http" = true ∧
    r.date.aware = true ∧ r.description = r.title := by
  have h := foldl_records_inv pyhash cards ([], []) r hr
  rcases h with hmem | ⟨seen, c, hres⟩
  · simp at hmem
  · exact processCard_record_inv hres

/-- Witness for C4: the record extracted from `cardB` satisfies all the
data-model invariants. -/
theorem c4_witness :
    recordB.title ≠ "" ∧ recordB.link ≠ "" ∧
    pyStartsWith recordB.link "http" = true ∧
    recordB.date.aware = true ∧ recordB.description = recordB.title :=
  c4_record_invariants pyhash0 [CardI.ok cardB] recordB (by decide)

/-- C5: a card whose title element is missing, or whose extracted title text
is empty after trimming, yields no record, regardless of its other fields. -/
theorem c5_title_required (pyhash : String → Int) (seen : List String)
    (c : Card) (h : c.titleText = none ∨ c.titleText = some "") :
    (processCard pyhash seen c).2 = none := by
  cases hres : (processCard pyhash seen c).2 with
  | none => rfl
  | some r =>
    obtain ⟨href, link, title, _, _, _, _, h5, h6, _, _⟩ := processCard_some hres
    rcases h with h | h
    · rw [h] at h5
      cases h5
    · rw [h] at h5
      injection h5 with h5
      exact absurd h5.symm h6

/-- Witness for C5: `cardNoTitle` has a well-formed link but no title element
and yields no record. -/
theorem c5_witness : (processCard pyhash0 [] cardNoTitle).2 = none :=
  c5_title_required pyhash0 [] cardNoTitle (Or.inl rfl)

/-- C6: a card with no discoverable category label — no nested label in a
meta line and no direct span label inside a category-bearing paragraph —
produces a record whose category is exactly `"Engineering"`. -/
theorem c6_category_default (pyhash : String → Int) (seen : List String)
    (c : Card) (r : ArticleRecord) (hr : (processCard pyhash seen c).2 = some r)
    (h1 : c.categorySpanText = none)
    (h2 : c.metaSpanTexts = none ∨ c.metaSpanTexts = some []) :
    r.category = "Engineering" := by
  obtain ⟨href, link, title, _, _, _, _, _, _, _, hrec⟩ := processCard_some hr
  subst hrec
  rcases h2 with h2 | h2 <;> simp [cardCategory, h1, h2]

/-- Witness for C6: `cardB` has no category markup at all and its record's
category is `"Engineering"`. -/
theorem c6_witness : recordB.category = "Engineering" :=
  c6_category_default pyhash0 [] cardB recordB (by decide) rfl (Or.inl rfl)

/-- C7: the Date Resolver is a deterministic pure function of its input
within one process: two calls with the same identifier string (under the same
per-process hash function) return the same timestamp. -/
theorem c7_deterministic (pyhash : String → Int) (s₁ s₂ : String)
    (h : s₁ = s₂) :
    stable_fallback_date pyhash s₁ = stable_fallback_date pyhash s₂ := by
  rw [h]

/-- Witness for C7: two calls on the same concrete identifier agree. -/
theorem c7_witness :
    stable_fallback_date pyhash0 "https://openai.com/index/a"
      = stable_fallback_date pyhash0 "https://openai.com/index/a" :=
  c7_deterministic pyhash0 "https://openai.com/index/a"
    "https://openai.com/index/a" rfl

/-- C8: an exception raised while processing one card aborts only that card:
the loop catches it, skips the card, and continues, so extraction still
returns the accumulated records of all the other cards (a raising card whose
exception occurs before the dedup registration contributes nothing at
all). -/
theorem c8_exception_skips_card (pyhash : String → Int) (pre post : List CardI) :
    parse_openai_eng_html pyhash (pre ++ CardI.raises none :: post)
      = parse_openai_eng_html pyhash (pre ++ post) := by
  unfold parse_openai_eng_html
  rw [List.foldl_append, List.foldl_append, List.foldl_cons]
  have hstep : ∀ st : List String × List ArticleRecord,
      stepCard pyhash st (CardI.raises none) = st := fun st => rfl
  rw [hstep]

/-- C9: when the first card bearing link `L` fails the title check, the link
is registered as seen before title validation, so a later well-formed card
bearing `L` is dropped as a duplicate and extraction yields no record with
link `L` at all. -/
theorem c9_poisoned_link (pyhash : String → Int) (pre mid post : List CardI)
    (c₁ c₂ : Card) (L : String)
    (h₁L : cardLink c₁ = some L)
    (h₁t : c₁.titleText = none ∨ c₁.titleText = some "")
    (h₂L : cardLink c₂ = some L)
    (h₂t : ∃ t, c₂.titleText = some t ∧ t ≠ "")
    (hpre : ∀ ci ∈ pre, ciLink ci ≠ some L)
    (hmid : ∀ ci ∈ mid, ciLink ci ≠ some L)
    (r : ArticleRecord)
    (hr : r ∈ parse_openai_eng_html pyhash
      (pre ++ CardI.ok c₁ :: (mid ++ CardI.ok c₂ :: post))) :
    r.link ≠ L := by
  unfold parse_openai_eng_html at hr
  rw [List.foldl_append, List.foldl_cons] at hr
  obtain ⟨hseen, hrecs⟩ := foldl_no_link pyhash L pre ([], []) hpre (by simp)
  have hpc : processCard pyhash (pre.foldl (stepCard pyhash) ([], [])).1 c₁
      = (L :: (pre.foldl (stepCard pyhash) ([], [])).1, none) :=
    processCard_titleFail h₁L hseen h₁t
  have hstep : stepCard pyhash (pre.foldl (stepCard pyhash) ([], []))
        (CardI.ok c₁)
      = (L :: (pre.foldl (stepCard pyhash) ([], [])).1,
         (pre.foldl (stepCard pyhash) ([], [])).2) := by
    simp [stepCard, hpc]
  rw [hstep] at hr
  exact foldl_dedup_blocks pyhash L (mid ++ CardI.ok c₂ :: post)
    (L :: (pre.foldl (stepCard pyhash) ([], [])).1,
     (pre.foldl (stepCard pyhash) ([], [])).2)
    (List.mem_cons_self _ _)
    (fun r0 hr0 => by
      rcases hrecs r0 hr0 with hmem | hne
      · simp at hmem
      · exact hne)
    r hr

/-- Witness for C9: with a title-less card and then a titled card both
bearing `/index/dup`, followed by `cardB`, extraction yields only `cardB`'s
record, whose link is not the duplicated one. -/
theorem c9_witness : recordB.link ≠ "https://openai.com/index/dup" :=
  c9_poisoned_link pyhash0 [] [] [CardI.ok cardB] cardDupNoTitle cardDupTitled
    "https://openai.com/index/dup" (by decide) (Or.inl rfl) (by decide)
    ⟨"Dup", rfl, by decide⟩ (by simp) (by simp) recordB (by decide)

/-- C10: a card whose category label element exists but has empty text after
trimming produces a record whose category is the empty string, not
`"Engineering"`: the default applies only when no label is found. -/
theorem c10_empty_label (pyhash : String → Int) (seen : List String)
    (c : Card) (r : ArticleRecord) (hr : (processCard pyhash seen c).2 = some r)
    (h : c.categorySpanText = some "") :
    r.category = "" := by
  obtain ⟨href, link, title, _, _, _, _, _, _, _, hrec⟩ := processCard_some hr
  subst hrec
  simp [cardCategory, h]

/-- Witness for C10: `cardEmptyLabel` carries an empty category label and its
record's category is the empty string. -/
theorem c10_witness : recordQux.category = "" :=
  c10_empty_label pyhash0 [] cardEmptyLabel recordQux (by decide) rfl
